import Mathlib

/-!
Shallow embedding of the gokafkaavro wire-format codec layer.

The Go package (package gokafkaavro) is embedded as executable Lean
definitions.  Bytes are modelled as natural numbers (each byte value is
below 256 on real inputs), the Go type int as Int, and the Go map used as
codec cache as an association list whose lookup has the same observable
semantics.  Fallible Go functions returning (value, err) become GoResult
or Except values: every early return with a nil value is an err or panic
constructor, and a Go runtime panic (out-of-range index or slice) is the
panic constructor.  The two external collaborators, the schema registry
client and the goavro binary codec provider, are modelled as records of
abstract functions, exactly the methods the source calls on them.
To make registry traffic observable, Decode, Encode and getCodecFor
additionally return the list of GetSchemaFor invocations they performed;
this is the only instrumentation added on top of the source.
-/

/-- Result of a Go call: a value, an error return, or a runtime panic. -/
inductive GoResult (α : Type) where
  | ok : α → GoResult α
  | err : String → GoResult α
  | panic : String → GoResult α
deriving DecidableEq

/-- Cache key, source type subjectVersionID with fields subject and versionID. -/
structure subjectVersionID where
  subject : String
  versionID : Int
deriving DecidableEq

/-- Model of a compiled goavro.Codec: the two methods the source calls.
BinaryFromNative is given a nil buffer in the source, so only the native
value argument remains; NativeFromBinary returns the value and the
remaining undecoded bytes. -/
structure GoavroCodec (α : Type) where
  binaryFromNative : α → Except String (List Nat)
  nativeFromBinary : List Nat → Except String (α × List Nat)

/-- Model of the schemaRegistryClient interface as used by the source:
GetVersionFor(subject, schema) and GetSchemaFor(subjectVersionID). -/
structure schemaRegistryClient where
  getVersionFor : String → String → Except String Int
  getSchemaFor : subjectVersionID → Except String String

/-- Source: getTopicNameStrategy returns "topic-key" when isKey and
"topic-value" otherwise. -/
def getTopicNameStrategy (topic : String) (isKey : Bool) : String :=
  if isKey then
    topic ++ "-key"
  else
    topic ++ "-value"

/-- Source: getSchemaID reads 4 bytes big-endian (binary.BigEndian.Uint32)
and converts to int. -/
def getSchemaID (data : List Nat) : Int :=
  ((data.getD 0 0 * 2 ^ 24 + data.getD 1 0 * 2 ^ 16 + data.getD 2 0 * 2 ^ 8 + data.getD 3 0 : Nat) : Int)

/-- Source: bytesForSchemaID converts the int to uint32 (truncation modulo
2^32, as the two-complement low 32 bits) and writes it big-endian (binary.BigEndian.PutUint32). -/
def bytesForSchemaID (schemaID : Int) : List Nat :=
  [(schemaID % 2 ^ 32).toNat / 2 ^ 24 % 256,
   (schemaID % 2 ^ 32).toNat / 2 ^ 16 % 256,
   (schemaID % 2 ^ 32).toNat / 2 ^ 8 % 256,
   (schemaID % 2 ^ 32).toNat % 256]

/-- The 4-byte big-endian encoding of an unsigned 32-bit value, written
after the wording of the frame table in the spec (offset 1, length 4,
big-endian unsigned 32-bit), for comparison with bytesForSchemaID. -/
def bigEndian4 (n : Nat) : List Nat :=
  [n / 2 ^ 24 % 256, n / 2 ^ 16 % 256, n / 2 ^ 8 % 256, n % 256]

/-- Source: extractSubjectAndVersionFromData.  The Go code indexes data[0]
and slices data[1:5] without any length check, so inputs that are too
short cause a runtime panic, modelled by the panic constructor. -/
def extractSubjectAndVersionFromData (topic : String) (isKey : Bool) (data : List Nat) :
    GoResult subjectVersionID :=
  match data.head? with
  | none => GoResult.panic "runtime error: index out of range"
  | some magicByte =>
    if magicByte ≠ 0 then
      GoResult.err "Unknown magic byte"
    else if data.length < 5 then
      GoResult.panic "runtime error: slice bounds out of range"
    else
      GoResult.ok ⟨getTopicNameStrategy topic isKey, getSchemaID ((data.drop 1).take 4)⟩

/-- Source: the Codec struct, with the client, the codec cache (a Go map,
modelled as an association list) and the subjectNameStrategy field. -/
structure Codec (α : Type) where
  client : schemaRegistryClient
  codecCache : List (subjectVersionID × GoavroCodec α)
  subjectNameStrategy : String → Bool → String

/-- Lookup in the association list modelling the Go map codecCache. -/
def lookupCache {α : Type} : List (subjectVersionID × GoavroCodec α) → subjectVersionID → Option (GoavroCodec α)
  | [], _ => none
  | (k, cod) :: rest, key => if k = key then some cod else lookupCache rest key

/-- Source: NewCodec returns a Codec with an empty cache and the default
getTopicNameStrategy. -/
def NewCodec {α : Type} (client : schemaRegistryClient) : Codec α :=
  ⟨client, [], getTopicNameStrategy⟩

/-- Source: Codec.getCodecFor.  On a cache miss it fetches the schema from
the registry, compiles it with goavro.NewCodec (the newCodec parameter,
modelling the external provider) and stores it; on any failure nothing is
stored.  The third component records the GetSchemaFor calls made. -/
def Codec.getCodecFor {α : Type} (newCodec : String → Except String (GoavroCodec α))
    (c : Codec α) (subjectVersion : subjectVersionID) :
    Except String (GoavroCodec α) × Codec α × List subjectVersionID :=
  match lookupCache c.codecCache subjectVersion with
  | some codec => (Except.ok codec, c, [])
  | none =>
    match c.client.getSchemaFor subjectVersion with
    | Except.error e => (Except.error e, c, [subjectVersion])
    | Except.ok schema =>
      match newCodec schema with
      | Except.error e => (Except.error e, c, [subjectVersion])
      | Except.ok codec =>
        (Except.ok codec, { c with codecCache := (subjectVersion, codec) :: c.codecCache }, [subjectVersion])

/-- Source: Codec.Decode.  Extracts the key from the framed data, resolves
the codec through the cache and decodes the payload data[5:]. -/
def Codec.Decode {α : Type} (newCodec : String → Except String (GoavroCodec α))
    (c : Codec α) (topic : String) (isKey : Bool) (data : List Nat) :
    GoResult α × Codec α × List subjectVersionID :=
  match extractSubjectAndVersionFromData topic isKey data with
  | GoResult.panic m => (GoResult.panic m, c, [])
  | GoResult.err e => (GoResult.err e, c, [])
  | GoResult.ok subjectVersion =>
    match Codec.getCodecFor newCodec c subjectVersion with
    | (Except.error e, c2, log) => (GoResult.err e, c2, log)
    | (Except.ok codec, c2, log) =>
      match codec.nativeFromBinary (data.drop 5) with
      | Except.error e => (GoResult.err e, c2, log)
      | Except.ok (native, _) => (GoResult.ok native, c2, log)

/-- Source: Codec.Encode.  Note that the subject comes from the package
level getTopicNameStrategy, not from the subjectNameStrategy field. -/
def Codec.Encode {α : Type} (newCodec : String → Except String (GoavroCodec α))
    (c : Codec α) (topic : String) (isKey : Bool) (schema : String) (native : α) :
    GoResult (List Nat) × Codec α × List subjectVersionID :=
  let subject := getTopicNameStrategy topic isKey
  match c.client.getVersionFor subject schema with
  | Except.error e => (GoResult.err e, c, [])
  | Except.ok versionID =>
    match Codec.getCodecFor newCodec c ⟨subject, versionID⟩ with
    | (Except.error e, c2, log) => (GoResult.err e, c2, log)
    | (Except.ok codec, c2, log) =>
      match codec.binaryFromNative native with
      | Except.error e => (GoResult.err e, c2, log)
      | Except.ok dataBytes =>
        (GoResult.ok (0 :: (bytesForSchemaID versionID ++ dataBytes)), c2, log)

/-- The body of Codec.Encode with the subject as a parameter, used to state
that Encode depends on (topic, isKey) only through getTopicNameStrategy. -/
def encodeWithSubject {α : Type} (newCodec : String → Except String (GoavroCodec α))
    (c : Codec α) (subject : String) (schema : String) (native : α) :
    GoResult (List Nat) × Codec α × List subjectVersionID :=
  match c.client.getVersionFor subject schema with
  | Except.error e => (GoResult.err e, c, [])
  | Except.ok versionID =>
    match Codec.getCodecFor newCodec c ⟨subject, versionID⟩ with
    | (Except.error e, c2, log) => (GoResult.err e, c2, log)
    | (Except.ok codec, c2, log) =>
      match codec.binaryFromNative native with
      | Except.error e => (GoResult.err e, c2, log)
      | Except.ok dataBytes =>
        (GoResult.ok (0 :: (bytesForSchemaID versionID ++ dataBytes)), c2, log)

/-- Model of the schemaregistry.Schema struct of the lensesio client; only
the Version field is read by the source. -/
structure registrySchema where
  version : Int

/-- Model of the lensesio schemaregistry.Client as used by NewEncoder:
RegisterNewSchema and IsRegistered. -/
structure registryClient where
  registerNewSchema : String → String → Except String Int
  isRegistered : String → String → Except String (Bool × registrySchema)

/-- Source: the Encoder struct binding a subject version and a compiled codec. -/
structure Encoder (α : Type) where
  subjectVersion : Int
  codec : GoavroCodec α

/-- Source: NewEncoder.  The second component records the RegisterNewSchema
calls made, to make registration side effects observable. -/
def NewEncoder {α : Type} (newCodec : String → Except String (GoavroCodec α))
    (client : registryClient) (autoRegister : Bool) (subjectName : String) (avroSchema : String) :
    Except String (Encoder α) × List (String × String) :=
  if autoRegister then
    match client.registerNewSchema subjectName avroSchema with
    | Except.error e => (Except.error e, [(subjectName, avroSchema)])
    | Except.ok subjectVersion =>
      match newCodec avroSchema with
      | Except.error e => (Except.error e, [(subjectName, avroSchema)])
      | Except.ok codec => (Except.ok ⟨subjectVersion, codec⟩, [(subjectName, avroSchema)])
  else
    match client.isRegistered subjectName avroSchema with
    | Except.error e => (Except.error e, [])
    | Except.ok (isReg, schema) =>
      if !isReg then
        (Except.error ("There is no registration on subject " ++ subjectName ++ " for schema " ++ avroSchema), [])
      else
        match newCodec avroSchema with
        | Except.error e => (Except.error e, [])
        | Except.ok codec => (Except.ok ⟨schema.version, codec⟩, [])

/-- Source: Encoder.Encode serializes with the bound codec only. -/
def Encoder.Encode {α : Type} (e : Encoder α) (native : α) : Except String (List Nat) :=
  e.codec.binaryFromNative native

/-- An operation on one Codec instance: a Decode or an Encode call. -/
inductive CodecOp (α : Type) where
  | decode : String → Bool → List Nat → CodecOp α
  | encode : String → Bool → String → α → CodecOp α

/-- Run one operation; keep the resulting state and the GetSchemaFor log. -/
def runOp {α : Type} (newCodec : String → Except String (GoavroCodec α))
    (c : Codec α) : CodecOp α → Codec α × List subjectVersionID
  | CodecOp.decode topic isKey data =>
    ((Codec.Decode newCodec c topic isKey data).2.1, (Codec.Decode newCodec c topic isKey data).2.2)
  | CodecOp.encode topic isKey schema native =>
    ((Codec.Encode newCodec c topic isKey schema native).2.1, (Codec.Encode newCodec c topic isKey schema native).2.2)

/-- Run a sequence of operations, concatenating the GetSchemaFor logs. -/
def runOps {α : Type} (newCodec : String → Except String (GoavroCodec α))
    (c : Codec α) : List (CodecOp α) → Codec α × List subjectVersionID
  | [] => (c, [])
  | op :: rest =>
    let s := runOp newCodec c op
    let t := runOps newCodec s.1 rest
    (t.1, s.2 ++ t.2)

/-- Number of GetSchemaFor calls for a given key in a log. -/
def countCalls (key : subjectVersionID) (log : List subjectVersionID) : Nat :=
  (log.filter (fun x => decide (x = key))).length

/-- Concrete collaborators used by witnesses and counterexamples. -/
def errClient : schemaRegistryClient :=
  ⟨fun _ _ => Except.error "registry unavailable", fun _ => Except.error "registry unavailable"⟩

/-- A codec on Nat whose decode inverts its encode. -/
def idCodec : GoavroCodec Nat :=
  { binaryFromNative := fun n => Except.ok [n],
    nativeFromBinary := fun l =>
      match l with
      | [n] => Except.ok (n, [])
      | _ => Except.error "cannot decode binary record" }

/-- A codec provider that compiles every schema to idCodec. -/
def okNewCodec : String → Except String (GoavroCodec Nat) :=
  fun _ => Except.ok idCodec

/-- A codec provider that fails to compile every schema. -/
def errNewCodec : String → Except String (GoavroCodec Nat) :=
  fun _ => Except.error "cannot compile schema"

/-- Registry model for the round-trip witness: version 3 for every
(subject, schema) query, schema "S" stored at version 3. -/
def rtClient : schemaRegistryClient :=
  ⟨fun _ _ => Except.ok 3,
   fun k => if k.versionID = 3 then Except.ok "S" else Except.error "schema not found"⟩

/-- Registry model for the round-trip counterexample: it registers the
schema at version 2^32 and serves it for exactly that key, as a registry
may. -/
def bigVersionClient : schemaRegistryClient :=
  ⟨fun _ _ => Except.ok (2 ^ 32),
   fun k => if k = ⟨"t-value", 2 ^ 32⟩ then Except.ok "S" else Except.error "schema not found"⟩

/-- Registry model for the cache witness: every key resolves to schema "S". -/
def availClient : schemaRegistryClient :=
  ⟨fun _ _ => Except.error "unused", fun _ => Except.ok "S"⟩

/-- Client model for the NewEncoder witness: nothing is registered. -/
def emptyRegistry : registryClient :=
  ⟨fun _ _ => Except.error "unused",
   fun _ _ => Except.ok (false, ⟨0⟩)⟩

/-- Core arithmetic fact: reading back the 4 frame bytes written for a
version ID yields the version ID modulo 2^32. -/
lemma getSchemaID_bytesForSchemaID (v : Int) :
    getSchemaID (bytesForSchemaID v) = v % 2 ^ 32 := by
  have h0 : 0 ≤ v % (2 ^ 32 : Int) := Int.emod_nonneg v (by norm_num)
  have h2 : v % (2 ^ 32 : Int) < 2 ^ 32 := Int.emod_lt_of_pos v (by norm_num)
  simp only [getSchemaID, bytesForSchemaID, List.getD_cons_zero, List.getD_cons_succ]
  omega


/-- Claim C10: the version-ID frame field wraps modulo 2^32: bytesForSchemaID(v)
encodes v mod 2^32, for 0 ≤ v < 2^32 the round trip through getSchemaID is
the identity, and a version at or above 2^32 or below 0 decodes to a
different version ID. -/
theorem schemaID_roundtrip_mod (v : Int) :
    getSchemaID (bytesForSchemaID v) = v % 2 ^ 32
    ∧ (0 ≤ v → v < 2 ^ 32 → getSchemaID (bytesForSchemaID v) = v)
    ∧ (v < 0 ∨ 2 ^ 32 ≤ v → getSchemaID (bytesForSchemaID v) ≠ v) := by
  have h := getSchemaID_bytesForSchemaID v
  have h0 : 0 ≤ v % (2 ^ 32 : Int) := Int.emod_nonneg v (by norm_num)
  have h2 : v % (2 ^ 32 : Int) < 2 ^ 32 := Int.emod_lt_of_pos v (by norm_num)
  refine ⟨h, fun hl hu => ?_, fun hout => ?_⟩
  · rw [h]
    exact Int.emod_eq_of_lt hl hu
  · rw [h]
    rcases hout with hneg | hbig
    · omega
    · omega

/-- Witness for schemaID_roundtrip_mod at version IDs 5 and 2^32. -/
theorem schemaID_roundtrip_mod_witness :
    getSchemaID (bytesForSchemaID 5) = 5 ∧ getSchemaID (bytesForSchemaID (2 ^ 32)) ≠ 2 ^ 32 :=
  ⟨(schemaID_roundtrip_mod 5).2.1 (by decide) (by decide),
   (schemaID_roundtrip_mod (2 ^ 32)).2.2 (Or.inr (by decide))⟩

/-- Claim C8: the default subject naming strategy is the pure function mapping
(topic, isKey) to "topic-key" or "topic-value"; Encode depends on (topic,
isKey) only through getTopicNameStrategy, and the key extracted by the
decode path carries exactly getTopicNameStrategy topic isKey, so the
subject used on the encode path equals the one used on the decode path. -/
theorem topic_name_strategy_spec (topic : String) (isKey : Bool) :
    getTopicNameStrategy topic isKey = (if isKey then topic ++ "-key" else topic ++ "-value")
    ∧ (∀ (α : Type) (newCodec : String → Except String (GoavroCodec α)) (c : Codec α)
        (schema : String) (native : α),
        Codec.Encode newCodec c topic isKey schema native =
          encodeWithSubject newCodec c (getTopicNameStrategy topic isKey) schema native)
    ∧ (∀ (data : List Nat) (sv : subjectVersionID),
        extractSubjectAndVersionFromData topic isKey data = GoResult.ok sv →
        sv.subject = getTopicNameStrategy topic isKey) := by
  refine ⟨rfl, fun α newCodec c schema native => rfl, fun data sv h => ?_⟩
  unfold extractSubjectAndVersionFromData at h
  match hd : data.head? with
  | none =>
    rw [hd] at h
    exact GoResult.noConfusion h
  | some b =>
    rw [hd] at h
    simp only [] at h
    by_cases hb : b ≠ 0
    · rw [if_pos hb] at h
      exact GoResult.noConfusion h
    · rw [if_neg hb] at h
      by_cases hl : data.length < 5
      · rw [if_pos hl] at h
        exact GoResult.noConfusion h
      · rw [if_neg hl] at h
        cases h
        rfl

/-- Witness for topic_name_strategy_spec on a concrete decoded frame. -/
theorem topic_name_strategy_spec_witness :
    (subjectVersionID.mk "t-value" 7).subject = getTopicNameStrategy "t" false :=
  (topic_name_strategy_spec "t" false).2.2 [0, 0, 0, 0, 7] ⟨"t-value", 7⟩ (by decide)

/-- Claim C1 (derived from the code): Decode has no length check; on input
shorter than 5 bytes whose first byte, if any, is zero, the Go code panics
with an out-of-range index or slice instead of returning a framing error. -/
theorem decode_short_input_panics {α : Type} (newCodec : String → Except String (GoavroCodec α))
    (c : Codec α) (topic : String) (isKey : Bool) (data : List Nat)
    (hshort : data.length < 5) (hzero : (data.head?).getD 0 = 0) :
    ∃ m, (Codec.Decode newCodec c topic isKey data).1 = GoResult.panic m := by
  match data with
  | [] =>
    exact ⟨"runtime error: index out of range", rfl⟩
  | b :: rest =>
    have hb : b = 0 := by simpa using hzero
    subst hb
    refine ⟨"runtime error: slice bounds out of range", ?_⟩
    unfold Codec.Decode extractSubjectAndVersionFromData
    simp only [List.head?_cons, ne_eq, not_true_eq_false, if_false, if_pos hshort]

/-- Witness for decode_short_input_panics on the one-byte input [0x00]. -/
theorem decode_short_input_panics_witness :
    ∃ m, (Codec.Decode errNewCodec (NewCodec errClient) "t" false [0]).1 = GoResult.panic m :=
  decode_short_input_panics errNewCodec (NewCodec errClient) "t" false [0] (by decide) (by decide)

/-- Claim C2 (amended): when byte 0 is non-zero, Decode fails with the fixed
InvalidWireFormat error message "Unknown magic byte" (which does not carry
the offending byte), returns no value, interprets no further bytes, makes
no registry call, and leaves the state untouched. -/
theorem decode_bad_magic_fails_fixed_error {α : Type}
    (newCodec : String → Except String (GoavroCodec α)) (c : Codec α)
    (topic : String) (isKey : Bool) (b : Nat) (rest : List Nat) (hb : b ≠ 0) :
    Codec.Decode newCodec c topic isKey (b :: rest) = (GoResult.err "Unknown magic byte", c, []) := by
  unfold Codec.Decode extractSubjectAndVersionFromData
  simp only [List.head?_cons, ne_eq, hb, not_false_eq_true, if_true]

/-- Witness for decode_bad_magic_fails_fixed_error at the spec scenario
input 0x01 0x00 0x00 0x00 0x01. -/
theorem decode_bad_magic_fails_fixed_error_witness :
    Codec.Decode errNewCodec (NewCodec errClient) "t" false [1, 0, 0, 0, 1] =
      (GoResult.err "Unknown magic byte", NewCodec errClient, []) :=
  decode_bad_magic_fails_fixed_error errNewCodec (NewCodec errClient) "t" false 1 [0, 0, 0, 1] (by decide)

/-- Claim C2 counterexample to the claim as stated: the error for first byte 0x01
equals the error for first byte 0x02 (both are the constant message
"Unknown magic byte"), so the returned error cannot carry the offending
byte. -/
theorem decode_bad_magic_error_carries_no_byte :
    (Codec.Decode errNewCodec (NewCodec errClient) "t" false [1, 0, 0, 0, 1]).1 =
      GoResult.err "Unknown magic byte"
    ∧ (Codec.Decode errNewCodec (NewCodec errClient) "t" false [2, 0, 0, 0, 1]).1 =
        (Codec.Decode errNewCodec (NewCodec errClient) "t" false [1, 0, 0, 0, 1]).1 := by
  exact ⟨by decide, by decide⟩

/-- Claim C4: every successful Encode returns exactly the frame made of the magic
byte 0, the 4-byte big-endian encoding of the registry version ID modulo
2^32, and the payload produced by the resolved codec; every other outcome
is an error carrying no frame at all. -/
theorem encode_frame_layout {α : Type} (newCodec : String → Except String (GoavroCodec α))
    (c : Codec α) (topic : String) (isKey : Bool) (schema : String) (native : α) :
    (∃ e, (Codec.Encode newCodec c topic isKey schema native).1 = GoResult.err e)
    ∨ (∃ vid cod payload,
        c.client.getVersionFor (getTopicNameStrategy topic isKey) schema = Except.ok vid
        ∧ (Codec.getCodecFor newCodec c ⟨getTopicNameStrategy topic isKey, vid⟩).1 = Except.ok cod
        ∧ cod.binaryFromNative native = Except.ok payload
        ∧ (Codec.Encode newCodec c topic isKey schema native).1 =
            GoResult.ok (0 :: (bytesForSchemaID vid ++ payload))
        ∧ bytesForSchemaID vid = bigEndian4 ((vid % 2 ^ 32).toNat)) := by
  rcases hv : c.client.getVersionFor (getTopicNameStrategy topic isKey) schema with e | vid
  · left
    exact ⟨e, by simp [Codec.Encode, hv]⟩
  · rcases hg : Codec.getCodecFor newCodec c ⟨getTopicNameStrategy topic isKey, vid⟩ with ⟨r, c2, log⟩
    cases r with
    | error e =>
      left
      exact ⟨e, by simp [Codec.Encode, hv, hg]⟩
    | ok cod =>
      rcases hb : cod.binaryFromNative native with e | payload
      · left
        exact ⟨e, by simp [Codec.Encode, hv, hg, hb]⟩
      · right
        refine ⟨vid, cod, payload, ?_, ?_, ?_, ?_, rfl⟩ <;>
          simp [Codec.Encode, hv, hg, hb]

/-- Claim C7: when a cache miss resolves with a failing registry fetch or a
failing schema compilation, getCodecFor returns the error and an unchanged
state, and Decode and Encode calls hitting that key return the error, no
value or frame, and the unchanged state. -/
theorem failed_resolution_no_mutation {α : Type} (newCodec : String → Except String (GoavroCodec α))
    (c : Codec α) (sv : subjectVersionID) (e : String)
    (hmiss : lookupCache c.codecCache sv = none)
    (hfail : c.client.getSchemaFor sv = Except.error e
      ∨ ∃ s, c.client.getSchemaFor sv = Except.ok s ∧ newCodec s = Except.error e) :
    Codec.getCodecFor newCodec c sv = (Except.error e, c, [sv])
    ∧ (∀ (topic : String) (isKey : Bool) (data : List Nat),
        extractSubjectAndVersionFromData topic isKey data = GoResult.ok sv →
        Codec.Decode newCodec c topic isKey data = (GoResult.err e, c, [sv]))
    ∧ (∀ (topic : String) (isKey : Bool) (schema : String) (native : α),
        c.client.getVersionFor (getTopicNameStrategy topic isKey) schema = Except.ok sv.versionID →
        sv.subject = getTopicNameStrategy topic isKey →
        Codec.Encode newCodec c topic isKey schema native = (GoResult.err e, c, [sv])) := by
  have hg : Codec.getCodecFor newCodec c sv = (Except.error e, c, [sv]) := by
    rcases hfail with hf | ⟨s, hs, hc⟩
    · simp [Codec.getCodecFor, hmiss, hf]
    · simp [Codec.getCodecFor, hmiss, hs, hc]
  refine ⟨hg, fun topic isKey data hx => ?_, fun topic isKey schema native hv hsubj => ?_⟩
  · simp [Codec.Decode, hx, hg]
  · have hk : (⟨getTopicNameStrategy topic isKey, sv.versionID⟩ : subjectVersionID) = sv := by
      cases sv
      simp_all
    simp [Codec.Encode, hv, hk, hg]

/-- Witness for failed_resolution_no_mutation: decoding a valid frame
against an unavailable registry returns the error and leaves the fresh
codec state unchanged. -/
theorem failed_resolution_no_mutation_witness :
    Codec.Decode errNewCodec (NewCodec errClient) "t" false [0, 0, 0, 0, 7] =
      (GoResult.err "registry unavailable", NewCodec errClient, [⟨"t-value", 7⟩]) :=
  (failed_resolution_no_mutation errNewCodec (NewCodec errClient) ⟨"t-value", 7⟩
    "registry unavailable" rfl (Or.inl rfl)).2.1 "t" false [0, 0, 0, 0, 7] (by decide)

/-- The components of getCodecFor other than the stored strategy function
do not depend on the subjectNameStrategy field. -/
lemma getCodecFor_strategy_indep {α : Type} (newCodec : String → Except String (GoavroCodec α))
    (cl : schemaRegistryClient) (cache : List (subjectVersionID × GoavroCodec α))
    (strat strat2 : String → Bool → String) (k : subjectVersionID) :
    (Codec.getCodecFor newCodec ⟨cl, cache, strat⟩ k).1 =
      (Codec.getCodecFor newCodec ⟨cl, cache, strat2⟩ k).1
    ∧ (Codec.getCodecFor newCodec ⟨cl, cache, strat⟩ k).2.1.codecCache =
        (Codec.getCodecFor newCodec ⟨cl, cache, strat2⟩ k).2.1.codecCache
    ∧ (Codec.getCodecFor newCodec ⟨cl, cache, strat⟩ k).2.2 =
        (Codec.getCodecFor newCodec ⟨cl, cache, strat2⟩ k).2.2 := by
  unfold Codec.getCodecFor
  rcases hl : lookupCache cache k with _ | cod
  · rcases hs : cl.getSchemaFor k with e | s
    · simp [hl, hs]
    · rcases hc : newCodec s with e | cod
      · simp [hl, hs, hc]
      · simp [hl, hs, hc]
  · simp [hl]

/-- Claim C5 (derived from the code): the subjectNameStrategy field stored in the
Codec struct is never consulted: the result value, the resulting cache and
the registry calls of both Decode and Encode are identical whatever
strategy the instance was constructed with, because both paths call the
package-level getTopicNameStrategy; NewCodec always installs the default. -/
theorem strategy_field_unused {α : Type} (newCodec : String → Except String (GoavroCodec α))
    (cl : schemaRegistryClient) (cache : List (subjectVersionID × GoavroCodec α))
    (strat : String → Bool → String) (topic : String) (isKey : Bool)
    (schema : String) (native : α) (data : List Nat) :
    (NewCodec cl : Codec α).subjectNameStrategy = getTopicNameStrategy
    ∧ (Codec.Encode newCodec ⟨cl, cache, strat⟩ topic isKey schema native).1 =
        (Codec.Encode newCodec ⟨cl, cache, getTopicNameStrategy⟩ topic isKey schema native).1
    ∧ (Codec.Encode newCodec ⟨cl, cache, strat⟩ topic isKey schema native).2.1.codecCache =
        (Codec.Encode newCodec ⟨cl, cache, getTopicNameStrategy⟩ topic isKey schema native).2.1.codecCache
    ∧ (Codec.Encode newCodec ⟨cl, cache, strat⟩ topic isKey schema native).2.2 =
        (Codec.Encode newCodec ⟨cl, cache, getTopicNameStrategy⟩ topic isKey schema native).2.2
    ∧ (Codec.Decode newCodec ⟨cl, cache, strat⟩ topic isKey data).1 =
        (Codec.Decode newCodec ⟨cl, cache, getTopicNameStrategy⟩ topic isKey data).1
    ∧ (Codec.Decode newCodec ⟨cl, cache, strat⟩ topic isKey data).2.1.codecCache =
        (Codec.Decode newCodec ⟨cl, cache, getTopicNameStrategy⟩ topic isKey data).2.1.codecCache
    ∧ (Codec.Decode newCodec ⟨cl, cache, strat⟩ topic isKey data).2.2 =
        (Codec.Decode newCodec ⟨cl, cache, getTopicNameStrategy⟩ topic isKey data).2.2 := by
  have hE : (Codec.Encode newCodec ⟨cl, cache, strat⟩ topic isKey schema native).1 =
        (Codec.Encode newCodec ⟨cl, cache, getTopicNameStrategy⟩ topic isKey schema native).1
      ∧ (Codec.Encode newCodec ⟨cl, cache, strat⟩ topic isKey schema native).2.1.codecCache =
        (Codec.Encode newCodec ⟨cl, cache, getTopicNameStrategy⟩ topic isKey schema native).2.1.codecCache
      ∧ (Codec.Encode newCodec ⟨cl, cache, strat⟩ topic isKey schema native).2.2 =
        (Codec.Encode newCodec ⟨cl, cache, getTopicNameStrategy⟩ topic isKey schema native).2.2 := by
    rcases hv : cl.getVersionFor (getTopicNameStrategy topic isKey) schema with e | vid
    · simp [Codec.Encode, hv]
    · obtain ⟨g1, g2, g3⟩ := getCodecFor_strategy_indep newCodec cl cache strat
        getTopicNameStrategy ⟨getTopicNameStrategy topic isKey, vid⟩
      rcases hg1 : Codec.getCodecFor newCodec ⟨cl, cache, strat⟩
          ⟨getTopicNameStrategy topic isKey, vid⟩ with ⟨r1, c1, log1⟩
      rcases hg2 : Codec.getCodecFor newCodec ⟨cl, cache, getTopicNameStrategy⟩
          ⟨getTopicNameStrategy topic isKey, vid⟩ with ⟨r2, c2, log2⟩
      rw [hg1, hg2] at g1 g2 g3
      simp only at g1 g2 g3
      subst g1
      subst g3
      cases r1 with
      | error e => simp [Codec.Encode, hv, hg1, hg2, g2]
      | ok cod =>
        rcases hb : cod.binaryFromNative native with e | payload
        · simp [Codec.Encode, hv, hg1, hg2, hb, g2]
        · simp [Codec.Encode, hv, hg1, hg2, hb, g2]
  have hD : (Codec.Decode newCodec ⟨cl, cache, strat⟩ topic isKey data).1 =
        (Codec.Decode newCodec ⟨cl, cache, getTopicNameStrategy⟩ topic isKey data).1
      ∧ (Codec.Decode newCodec ⟨cl, cache, strat⟩ topic isKey data).2.1.codecCache =
        (Codec.Decode newCodec ⟨cl, cache, getTopicNameStrategy⟩ topic isKey data).2.1.codecCache
      ∧ (Codec.Decode newCodec ⟨cl, cache, strat⟩ topic isKey data).2.2 =
        (Codec.Decode newCodec ⟨cl, cache, getTopicNameStrategy⟩ topic isKey data).2.2 := by
    rcases hx : extractSubjectAndVersionFromData topic isKey data with sv | e | m
    · obtain ⟨g1, g2, g3⟩ := getCodecFor_strategy_indep newCodec cl cache strat
        getTopicNameStrategy sv
      rcases hg1 : Codec.getCodecFor newCodec ⟨cl, cache, strat⟩ sv with ⟨r1, c1, log1⟩
      rcases hg2 : Codec.getCodecFor newCodec ⟨cl, cache, getTopicNameStrategy⟩ sv with ⟨r2, c2, log2⟩
      rw [hg1, hg2] at g1 g2 g3
      simp only at g1 g2 g3
      subst g1
      subst g3
      cases r1 with
      | error e => simp [Codec.Decode, hx, hg1, hg2, g2]
      | ok cod =>
        rcases hb : cod.nativeFromBinary (data.drop 5) with e | p
        · simp [Codec.Decode, hx, hg1, hg2, hb, g2]
        · rcases p with ⟨nat, remaining⟩
          simp [Codec.Decode, hx, hg1, hg2, hb, g2]
    · simp [Codec.Decode, hx]
    · simp [Codec.Decode, hx]
  exact ⟨rfl, hE.1, hE.2.1, hE.2.2, hD.1, hD.2.1, hD.2.2⟩

/-- Claim C3 (amended): the round trip holds when the registered version ID fits
an unsigned 32-bit value.  If the registry maps (subject, schema) to vid
with 0 ≤ vid < 2^32 and serves schema s for that key, s compiles to a codec
whose decode inverts its encode on v, then decoding the encoded frame on a
fresh Codec instance yields v again. -/
theorem encode_decode_roundtrip {α : Type} (newCodec : String → Except String (GoavroCodec α))
    (cl : schemaRegistryClient) (topic : String) (isKey : Bool) (s : String) (v : α)
    (vid : Int) (cod : GoavroCodec α) (payload : List Nat) (rest : List Nat)
    (h1 : cl.getVersionFor (getTopicNameStrategy topic isKey) s = Except.ok vid)
    (h2 : 0 ≤ vid) (h3 : vid < 2 ^ 32)
    (h4 : cl.getSchemaFor ⟨getTopicNameStrategy topic isKey, vid⟩ = Except.ok s)
    (h5 : newCodec s = Except.ok cod)
    (h6 : cod.binaryFromNative v = Except.ok payload)
    (h7 : cod.nativeFromBinary payload = Except.ok (v, rest)) :
    ∃ frame c2 log,
      Codec.Encode newCodec (NewCodec cl) topic isKey s v = (GoResult.ok frame, c2, log)
      ∧ (Codec.Decode newCodec c2 topic isKey frame).1 = GoResult.ok v := by
  have hg : Codec.getCodecFor newCodec ⟨cl, [], getTopicNameStrategy⟩
      ⟨getTopicNameStrategy topic isKey, vid⟩ =
      (Except.ok cod,
       ⟨cl, [(⟨getTopicNameStrategy topic isKey, vid⟩, cod)], getTopicNameStrategy⟩,
       [⟨getTopicNameStrategy topic isKey, vid⟩]) := by
    simp [Codec.getCodecFor, lookupCache, h4, h5]
  have henc : Codec.Encode newCodec (NewCodec cl) topic isKey s v =
      (GoResult.ok (0 :: (bytesForSchemaID vid ++ payload)),
       ⟨cl, [(⟨getTopicNameStrategy topic isKey, vid⟩, cod)], getTopicNameStrategy⟩,
       [⟨getTopicNameStrategy topic isKey, vid⟩]) := by
    simp [Codec.Encode, NewCodec, h1, hg, h6]
  refine ⟨0 :: (bytesForSchemaID vid ++ payload),
    ⟨cl, [(⟨getTopicNameStrategy topic isKey, vid⟩, cod)], getTopicNameStrategy⟩,
    [⟨getTopicNameStrategy topic isKey, vid⟩], henc, ?_⟩
  have hlen : ¬ ((0 :: (bytesForSchemaID vid ++ payload)).length < 5) := by
    simp [bytesForSchemaID]
  have htake : ((0 :: (bytesForSchemaID vid ++ payload)).drop 1).take 4 = bytesForSchemaID vid := by
    simp [bytesForSchemaID]
  have hx : extractSubjectAndVersionFromData topic isKey (0 :: (bytesForSchemaID vid ++ payload)) =
      GoResult.ok ⟨getTopicNameStrategy topic isKey, vid⟩ := by
    unfold extractSubjectAndVersionFromData
    simp only [List.head?_cons, ne_eq, not_true_eq_false, if_false, if_neg hlen, htake]
    rw [getSchemaID_bytesForSchemaID vid, Int.emod_eq_of_lt h2 h3]
  have hlookup2 : lookupCache
      [(⟨getTopicNameStrategy topic isKey, vid⟩, cod)] ⟨getTopicNameStrategy topic isKey, vid⟩ =
      some cod := by
    simp [lookupCache]
  have hg2 : Codec.getCodecFor newCodec
      ⟨cl, [(⟨getTopicNameStrategy topic isKey, vid⟩, cod)], getTopicNameStrategy⟩
      ⟨getTopicNameStrategy topic isKey, vid⟩ =
      (Except.ok cod,
       ⟨cl, [(⟨getTopicNameStrategy topic isKey, vid⟩, cod)], getTopicNameStrategy⟩, []) := by
    simp [Codec.getCodecFor, hlookup2]
  have hdrop : (0 :: (bytesForSchemaID vid ++ payload)).drop 5 = payload := by
    simp [bytesForSchemaID]
  simp [Codec.Decode, hx, hg2, hdrop, h7]



/-- Witness for encode_decode_roundtrip at a concrete registry and codec. -/
theorem encode_decode_roundtrip_witness :
    ∃ frame c2 log,
      Codec.Encode okNewCodec (NewCodec rtClient) "t" false "S" 7 = (GoResult.ok frame, c2, log)
      ∧ (Codec.Decode okNewCodec c2 "t" false frame).1 = GoResult.ok 7 :=
  encode_decode_roundtrip okNewCodec rtClient "t" false "S" 7 3 idCodec [7] []
    rfl (by decide) (by decide) rfl rfl rfl rfl



/-- Claim C3 counterexample to the claim as stated: with schema "S" registered
under subject "t-value" (at version 2^32) and a codec whose decode inverts
its encode on the value 7, Encode succeeds but its 4-byte frame field
truncates the version to 0, so Decode resolves key ("t-value", 0), the
registry lookup fails, and the round trip does not yield 7. -/
theorem roundtrip_fails_at_large_version :
    bigVersionClient.getVersionFor (getTopicNameStrategy "t" false) "S" = Except.ok (2 ^ 32)
    ∧ bigVersionClient.getSchemaFor ⟨"t-value", 2 ^ 32⟩ = Except.ok "S"
    ∧ idCodec.binaryFromNative 7 = Except.ok [7]
    ∧ idCodec.nativeFromBinary [7] = Except.ok (7, [])
    ∧ (Codec.Encode okNewCodec (NewCodec bigVersionClient) "t" false "S" 7).1 =
        GoResult.ok [0, 0, 0, 0, 0, 7]
    ∧ (Codec.Decode okNewCodec
        (Codec.Encode okNewCodec (NewCodec bigVersionClient) "t" false "S" 7).2.1
        "t" false [0, 0, 0, 0, 0, 7]).1 = GoResult.err "schema not found" := by
  refine ⟨rfl, rfl, rfl, rfl, by decide, by decide⟩

lemma countCalls_singleton_ne {k k2 : subjectVersionID} (h : k2 ≠ k) : countCalls k [k2] = 0 := by
  simp [countCalls, h]

lemma countCalls_singleton_eq (k : subjectVersionID) : countCalls k [k] = 1 := by
  simp [countCalls]

lemma countCalls_append (k : subjectVersionID) (l1 l2 : List subjectVersionID) :
    countCalls k (l1 ++ l2) = countCalls k l1 + countCalls k l2 := by
  simp [countCalls, List.filter_append]

lemma runOps_cons {α : Type} (newCodec : String → Except String (GoavroCodec α))
    (c : Codec α) (op : CodecOp α) (rest : List (CodecOp α)) :
    runOps newCodec c (op :: rest) =
      ((runOps newCodec (runOp newCodec c op).1 rest).1,
       (runOp newCodec c op).2 ++ (runOps newCodec (runOp newCodec c op).1 rest).2) := rfl

/-- A cache hit returns the cached codec with no state change and no
registry call. -/
lemma getCodecFor_cached {α : Type} (newCodec : String → Except String (GoavroCodec α))
    (c : Codec α) (k : subjectVersionID) (cod : GoavroCodec α)
    (h : lookupCache c.codecCache k = some cod) :
    Codec.getCodecFor newCodec c k = (Except.ok cod, c, []) := by
  simp [Codec.getCodecFor, h]

/-- getCodecFor never removes or replaces an existing cache entry, and
never queries the registry for a key that is already cached. -/
lemma getCodecFor_preserves_entry {α : Type} (newCodec : String → Except String (GoavroCodec α))
    (c : Codec α) (k2 k : subjectVersionID) (cod : GoavroCodec α)
    (h : lookupCache c.codecCache k = some cod) :
    lookupCache (Codec.getCodecFor newCodec c k2).2.1.codecCache k = some cod
    ∧ countCalls k (Codec.getCodecFor newCodec c k2).2.2 = 0 := by
  rcases hl : lookupCache c.codecCache k2 with _ | cod2
  · have hne : k2 ≠ k := by
      intro he
      rw [he, h] at hl
      exact Option.noConfusion hl
    rcases hs : c.client.getSchemaFor k2 with e | sch
    · exact ⟨by simp [Codec.getCodecFor, hl, hs, h], by
        simp [Codec.getCodecFor, hl, hs, countCalls_singleton_ne hne]⟩
    · rcases hc : newCodec sch with e | cod3
      · exact ⟨by simp [Codec.getCodecFor, hl, hs, hc, h], by
          simp [Codec.getCodecFor, hl, hs, hc, countCalls_singleton_ne hne]⟩
      · exact ⟨by simp [Codec.getCodecFor, hl, hs, hc, lookupCache, hne, h], by
          simp [Codec.getCodecFor, hl, hs, hc, countCalls_singleton_ne hne]⟩
  · exact ⟨by simp [Codec.getCodecFor, hl, h], by simp [Codec.getCodecFor, hl, countCalls]⟩

lemma getCodecFor_client {α : Type} (newCodec : String → Except String (GoavroCodec α))
    (c : Codec α) (sv : subjectVersionID) :
    (Codec.getCodecFor newCodec c sv).2.1.client = c.client := by
  rcases hl : lookupCache c.codecCache sv with _ | cod
  · rcases hs : c.client.getSchemaFor sv with e | sch
    · simp [Codec.getCodecFor, hl, hs]
    · rcases hc : newCodec sch with e | cod2
      · simp [Codec.getCodecFor, hl, hs, hc]
      · simp [Codec.getCodecFor, hl, hs, hc]
  · simp [Codec.getCodecFor, hl]

lemma getCodecFor_log_cases {α : Type} (newCodec : String → Except String (GoavroCodec α))
    (c : Codec α) (sv : subjectVersionID) :
    (Codec.getCodecFor newCodec c sv).2.2 = [] ∨ (Codec.getCodecFor newCodec c sv).2.2 = [sv] := by
  rcases hl : lookupCache c.codecCache sv with _ | cod
  · rcases hs : c.client.getSchemaFor sv with e | sch
    · right
      simp [Codec.getCodecFor, hl, hs]
    · rcases hc : newCodec sch with e | cod2
      · right
        simp [Codec.getCodecFor, hl, hs, hc]
      · right
        simp [Codec.getCodecFor, hl, hs, hc]
  · left
    simp [Codec.getCodecFor, hl]

/-- Every Decode or Encode call either leaves the state alone with no
registry call, or passes through exactly one getCodecFor resolution. -/
lemma runOp_shape {α : Type} (newCodec : String → Except String (GoavroCodec α))
    (c : Codec α) (op : CodecOp α) :
    runOp newCodec c op = (c, [])
    ∨ ∃ sv, runOp newCodec c op =
        ((Codec.getCodecFor newCodec c sv).2.1, (Codec.getCodecFor newCodec c sv).2.2) := by
  cases op with
  | decode topic isKey data =>
    rcases hx : extractSubjectAndVersionFromData topic isKey data with sv | e | m
    · right
      refine ⟨sv, ?_⟩
      rcases hg : Codec.getCodecFor newCodec c sv with ⟨r, c2, log⟩
      cases r with
      | error e => simp [runOp, Codec.Decode, hx, hg]
      | ok cod =>
        rcases hb : cod.nativeFromBinary (data.drop 5) with e | p
        · simp [runOp, Codec.Decode, hx, hg, hb]
        · rcases p with ⟨n, rem⟩
          simp [runOp, Codec.Decode, hx, hg, hb]
    · left
      simp [runOp, Codec.Decode, hx]
    · left
      simp [runOp, Codec.Decode, hx]
  | encode topic isKey schema native =>
    rcases hv : c.client.getVersionFor (getTopicNameStrategy topic isKey) schema with e | vid
    · left
      simp [runOp, Codec.Encode, hv]
    · right
      refine ⟨⟨getTopicNameStrategy topic isKey, vid⟩, ?_⟩
      rcases hg : Codec.getCodecFor newCodec c ⟨getTopicNameStrategy topic isKey, vid⟩ with ⟨r, c2, log⟩
      cases r with
      | error e => simp [runOp, Codec.Encode, hv, hg]
      | ok cod =>
        rcases hb : cod.binaryFromNative native with e | payload
        · simp [runOp, Codec.Encode, hv, hg, hb]
        · simp [runOp, Codec.Encode, hv, hg, hb]

lemma runOp_client {α : Type} (newCodec : String → Except String (GoavroCodec α))
    (c : Codec α) (op : CodecOp α) : (runOp newCodec c op).1.client = c.client := by
  rcases runOp_shape newCodec c op with h | ⟨sv, h⟩
  · rw [h]
  · rw [h]
    exact getCodecFor_client newCodec c sv

lemma runOp_preserves_entry {α : Type} (newCodec : String → Except String (GoavroCodec α))
    (c : Codec α) (op : CodecOp α) (k : subjectVersionID) (cod : GoavroCodec α)
    (h : lookupCache c.codecCache k = some cod) :
    lookupCache (runOp newCodec c op).1.codecCache k = some cod
    ∧ countCalls k (runOp newCodec c op).2 = 0 := by
  rcases runOp_shape newCodec c op with hsh | ⟨sv, hsh⟩
  · rw [hsh]
    exact ⟨h, rfl⟩
  · rw [hsh]
    exact getCodecFor_preserves_entry newCodec c sv k cod h

/-- Once a key is cached, an arbitrary further sequence of Decode and
Encode calls never queries the registry for it and never evicts or
replaces its entry. -/
lemma runOps_cached {α : Type} (newCodec : String → Except String (GoavroCodec α))
    (k : subjectVersionID) (cod : GoavroCodec α) :
    ∀ (ops : List (CodecOp α)) (c : Codec α), lookupCache c.codecCache k = some cod →
    countCalls k (runOps newCodec c ops).2 = 0
    ∧ lookupCache (runOps newCodec c ops).1.codecCache k = some cod := by
  intro ops
  induction ops with
  | nil =>
    intro c h
    exact ⟨rfl, h⟩
  | cons op rest ih =>
    intro c h
    obtain ⟨h1, h2⟩ := runOp_preserves_entry newCodec c op k cod h
    obtain ⟨h3, h4⟩ := ih (runOp newCodec c op).1 h1
    rw [runOps_cons]
    exact ⟨by rw [countCalls_append, h2, h3], h4⟩

/-- When the resolution of key k succeeds against the given client and
provider, any sequence of calls queries the registry for k at most once. -/
lemma runOps_le_one {α : Type} (newCodec : String → Except String (GoavroCodec α))
    (k : subjectVersionID) :
    ∀ (ops : List (CodecOp α)) (c : Codec α),
    (∃ s cod, c.client.getSchemaFor k = Except.ok s ∧ newCodec s = Except.ok cod) →
    countCalls k (runOps newCodec c ops).2 ≤ 1 := by
  intro ops
  induction ops with
  | nil =>
    intro c _
    exact Nat.zero_le 1
  | cons op rest ih =>
    intro c hsucc
    rw [runOps_cons, countCalls_append]
    rcases runOp_shape newCodec c op with hsh | ⟨sv, hsh⟩
    · rw [hsh]
      simpa [countCalls] using ih c hsucc
    · by_cases hk : sv = k
      · subst hk
        rcases hl : lookupCache c.codecCache sv with _ | cod
        · obtain ⟨s, cod, hs, hc⟩ := hsucc
          have hg : Codec.getCodecFor newCodec c sv =
              (Except.ok cod, { c with codecCache := (sv, cod) :: c.codecCache }, [sv]) := by
            simp [Codec.getCodecFor, hl, hs, hc]
          have hcached : lookupCache ((sv, cod) :: c.codecCache) sv = some cod := by
            simp [lookupCache]
          obtain ⟨hz, _⟩ := runOps_cached newCodec sv cod rest
            { c with codecCache := (sv, cod) :: c.codecCache } hcached
          rw [hsh, hg]
          simp only []
          rw [countCalls_singleton_eq, hz]
        · have hg := getCodecFor_cached newCodec c sv cod hl
          rw [hsh, hg]
          simpa [countCalls] using ih c hsucc
      · have hcl := runOp_client newCodec c op
        have hcount : countCalls k (runOp newCodec c op).2 = 0 := by
          rw [hsh]
          rcases getCodecFor_log_cases newCodec c sv with hlog | hlog
          · rw [hlog]
            rfl
          · rw [hlog]
            exact countCalls_singleton_ne hk
        rw [hcount]
        have hsucc2 : ∃ s cod, (runOp newCodec c op).1.client.getSchemaFor k = Except.ok s
            ∧ newCodec s = Except.ok cod := by
          rw [hcl]
          exact hsucc
        simpa using ih (runOp newCodec c op).1 hsucc2

/-- Claim C6 (amended): for a key whose resolution succeeds against the client
and the codec provider, any sequence of Decode and Encode calls starting
from a fresh Codec queries the registry for that key at most once; and once
an entry exists for the key, every resolution returns exactly the cached
codec, with an unchanged state and no registry call. -/
theorem getSchemaFor_at_most_once {α : Type} (newCodec : String → Except String (GoavroCodec α))
    (cl : schemaRegistryClient) (ops : List (CodecOp α)) (k : subjectVersionID)
    (hsucc : ∃ s cod, cl.getSchemaFor k = Except.ok s ∧ newCodec s = Except.ok cod) :
    countCalls k (runOps newCodec (NewCodec cl) ops).2 ≤ 1
    ∧ ∀ cod, lookupCache (runOps newCodec (NewCodec cl) ops).1.codecCache k = some cod →
        Codec.getCodecFor newCodec (runOps newCodec (NewCodec cl) ops).1 k =
          (Except.ok cod, (runOps newCodec (NewCodec cl) ops).1, []) :=
  ⟨runOps_le_one newCodec k ops (NewCodec cl) hsucc,
   fun cod h => getCodecFor_cached newCodec (runOps newCodec (NewCodec cl) ops).1 k cod h⟩



/-- Witness for getSchemaFor_at_most_once: two decode calls of the same
frame make at most one GetSchemaFor call. -/
theorem getSchemaFor_at_most_once_witness :
    countCalls ⟨"t-value", 7⟩ (runOps okNewCodec (NewCodec availClient)
      [CodecOp.decode "t" false [0, 0, 0, 0, 7], CodecOp.decode "t" false [0, 0, 0, 0, 7]]).2 ≤ 1 :=
  (getSchemaFor_at_most_once okNewCodec availClient
    [CodecOp.decode "t" false [0, 0, 0, 0, 7], CodecOp.decode "t" false [0, 0, 0, 0, 7]]
    ⟨"t-value", 7⟩ ⟨"S", idCodec, rfl, rfl⟩).1

/-- Claim C6 counterexample to the claim as stated: when resolution fails (the
registry errors), a failed call caches nothing, so two Decode calls for the
same key query GetSchemaFor twice: the registry is not invoked at most once
over the cache lifetime. -/
theorem getSchemaFor_called_twice_on_failure :
    ¬ (countCalls ⟨"t-value", 7⟩ (runOps errNewCodec (NewCodec errClient)
        [CodecOp.decode "t" false [0, 0, 0, 0, 7], CodecOp.decode "t" false [0, 0, 0, 0, 7]]).2 ≤ 1) := by
  decide

/-- Claim C9: with autoRegister false, when the client reports the schema as not
registered, NewEncoder fails with the error naming both the subject and the
schema, performs no RegisterNewSchema call and returns no encoder; when the
client reports it as registered, the encoder is bound to the version the
registry returned. -/
theorem newEncoder_not_registered {α : Type} (newCodec : String → Except String (GoavroCodec α))
    (client : registryClient) (subjectName : String) (avroSchema : String) :
    (∀ s, client.isRegistered subjectName avroSchema = Except.ok (false, s) →
      NewEncoder newCodec client false subjectName avroSchema =
        (Except.error ("There is no registration on subject " ++ subjectName ++
          " for schema " ++ avroSchema), []))
    ∧ (∀ s cod, client.isRegistered subjectName avroSchema = Except.ok (true, s) →
        newCodec avroSchema = Except.ok cod →
        NewEncoder newCodec client false subjectName avroSchema =
          (Except.ok ⟨s.version, cod⟩, [])) := by
  constructor
  · intro s h
    simp [NewEncoder, h]
  · intro s cod h hc
    simp [NewEncoder, h, hc]



/-- Witness for newEncoder_not_registered at a concrete unregistered schema. -/
theorem newEncoder_not_registered_witness :
    NewEncoder okNewCodec emptyRegistry false "sub" "sch" =
      (Except.error "There is no registration on subject sub for schema sch", []) := by
  have h := (newEncoder_not_registered okNewCodec emptyRegistry "sub" "sch").1 ⟨0⟩ rfl
  simpa using h
